import Mathlib

/-!
Verification of the experiment-orchestration engine of the Research-framwork
repository (src/src/orchestrator). We shallowly embed the core data model
(contexts, metrics, agent variants, the registry) and the two experiment
operations of `MetaOrchestrator` (`runStandardExperiment`,
`runAdversarialBenchmark`), together with the concrete variants
`SimpleAdversarialVariant` and `CorruptedTextAdversary`, and prove the
behavioural properties stated in the specification.

JavaScript objects and `Map`s are modelled as insertion-ordered association
lists (`List (String × α)`): `setEntry` overwrites an existing binding in
place or appends a fresh one, matching both object-spread updates and
`Map.prototype.set`; `lookupEntry` returns the bound value; `mapOfEntries`
models `new Map(entries)` (iterate `set` over the entry list). Promise
rejection and thrown exceptions are modelled with `Except String`.
-/

/-- Dynamic values stored in contexts and metrics records. -/
inductive Value where
  | str (s : String)
  | nat (n : Nat)
  | bool (b : Bool)
deriving DecidableEq, Repr

/-- An insertion-ordered string-keyed record (JS object / Map contents). -/
abbrev Obj := List (String × Value)

/-- Context values passed into agent runs (open key/value record). -/
abbrev Context := Obj

/-- Metrics records returned by agent runs (open key/value record). -/
abbrev PerformanceMetrics := Obj

/-- Lookup of a key in an association list (JS property read / `Map.get`). -/
def lookupEntry {α : Type} : List (String × α) → String → Option α
  | [], _ => none
  | (k, v) :: rest, key => if k = key then some v else lookupEntry rest key

/-- Update of a key in an association list: overwrite in place when the key is
present, append otherwise (JS object spread update / `Map.set`). -/
def setEntry {α : Type} : List (String × α) → String → α → List (String × α)
  | [], key, v => [(key, v)]
  | (k, w) :: rest, key, v =>
      if k = key then (k, v) :: rest else (k, w) :: setEntry rest key v

/-- Key list of an association list, in insertion order. -/
def keysOf {α : Type} (m : List (String × α)) : List String := m.map Prod.fst

/-- Fold a list of entries into a map starting from `acc` (`Map.set` loop). -/
def mapOfEntriesFrom {α : Type} (acc l : List (String × α)) :
    List (String × α) :=
  l.foldl (fun m kv => setEntry m kv.1 kv.2) acc

/-- The map built from an entry list, as by `new Map(entries)`. -/
def mapOfEntries {α : Type} (l : List (String × α)) : List (String × α) :=
  mapOfEntriesFrom [] l

theorem lookupEntry_setEntry_self {α : Type} (m : List (String × α))
    (k : String) (v : α) : lookupEntry (setEntry m k v) k = some v := by
  induction m with
  | nil => simp [setEntry, lookupEntry]
  | cons hd tl ih =>
      obtain ⟨k0, w⟩ := hd
      by_cases h : k0 = k
      · simp [setEntry, lookupEntry, h]
      · simp [setEntry, lookupEntry, h, ih]

theorem lookupEntry_setEntry_ne {α : Type} (m : List (String × α))
    (k x : String) (v : α) (hx : x ≠ k) :
    lookupEntry (setEntry m k v) x = lookupEntry m x := by
  induction m with
  | nil => simp [setEntry, lookupEntry, Ne.symm hx]
  | cons hd tl ih =>
      obtain ⟨k0, w⟩ := hd
      by_cases h : k0 = k
      · subst h
        simp [setEntry, lookupEntry, Ne.symm hx]
      · by_cases h2 : k0 = x
        · subst h2
          simp [setEntry, lookupEntry, h, hx]
        · simp [setEntry, lookupEntry, h, h2, ih]

theorem mem_keys_setEntry {α : Type} (m : List (String × α)) (k x : String)
    (v : α) : x ∈ keysOf (setEntry m k v) ↔ x ∈ keysOf m ∨ x = k := by
  induction m with
  | nil => simp [setEntry, keysOf]
  | cons hd tl ih =>
      obtain ⟨k0, w⟩ := hd
      by_cases h : k0 = k
      · subst h
        simp [setEntry, keysOf]
        tauto
      · simp [setEntry, keysOf, h] at ih ⊢
        tauto

theorem nodup_keys_setEntry {α : Type} (m : List (String × α)) (k : String)
    (v : α) (hm : (keysOf m).Nodup) : (keysOf (setEntry m k v)).Nodup := by
  induction m with
  | nil => simp [setEntry, keysOf]
  | cons hd tl ih =>
      obtain ⟨k0, w⟩ := hd
      simp only [keysOf, List.map_cons, List.nodup_cons] at hm
      by_cases h : k0 = k
      · subst h
        simpa [setEntry, keysOf] using hm
      · have htl := ih hm.2
        have hmem : k0 ∈ keysOf (setEntry tl k v) ↔ k0 ∈ keysOf tl ∨ k0 = k :=
          mem_keys_setEntry tl k k0 v
        simp only [setEntry, h, if_false, keysOf, List.map_cons,
          List.nodup_cons]
        refine ⟨?_, htl⟩
        intro hk0
        rcases (hmem.mp hk0) with hin | heq
        · exact hm.1 (by simpa [keysOf] using hin)
        · exact h heq

theorem lookupEntry_eq_none_iff {α : Type} (m : List (String × α))
    (k : String) : lookupEntry m k = none ↔ k ∉ keysOf m := by
  induction m with
  | nil => simp [lookupEntry, keysOf]
  | cons hd tl ih =>
      obtain ⟨k0, w⟩ := hd
      by_cases h : k0 = k
      · simp [lookupEntry, keysOf, h]
      · simp [lookupEntry, keysOf, h, Ne.symm h, ih]

theorem setEntry_of_lookup_none {α : Type} (m : List (String × α))
    (k : String) (v : α) (h : lookupEntry m k = none) :
    setEntry m k v = m ++ [(k, v)] := by
  induction m with
  | nil => simp [setEntry]
  | cons hd tl ih =>
      obtain ⟨k0, w⟩ := hd
      by_cases hk : k0 = k
      · simp [lookupEntry, hk] at h
      · simp [lookupEntry, hk] at h
        simp [setEntry, hk, ih h]

theorem lookupEntry_append_none {α : Type} (m1 m2 : List (String × α))
    (k : String) (h : lookupEntry m1 k = none) :
    lookupEntry (m1 ++ m2) k = lookupEntry m2 k := by
  induction m1 with
  | nil => simp
  | cons hd tl ih =>
      obtain ⟨k0, w⟩ := hd
      by_cases hk : k0 = k
      · simp [lookupEntry, hk] at h
      · simp [lookupEntry, hk] at h ⊢
        exact ih h

theorem mem_keys_mapOfEntriesFrom {α : Type} (l : List (String × α)) :
    ∀ (acc : List (String × α)) (x : String),
      x ∈ keysOf (mapOfEntriesFrom acc l) ↔ x ∈ keysOf acc ∨ x ∈ keysOf l := by
  induction l with
  | nil => intro acc x; simp [mapOfEntriesFrom, keysOf]
  | cons hd tl ih =>
      intro acc x
      obtain ⟨k, v⟩ := hd
      have hstep : mapOfEntriesFrom acc ((k, v) :: tl) =
          mapOfEntriesFrom (setEntry acc k v) tl := rfl
      rw [hstep, ih (setEntry acc k v) x]
      rw [mem_keys_setEntry acc k x v]
      simp [keysOf]
      tauto

theorem nodup_keys_mapOfEntriesFrom {α : Type} (l : List (String × α)) :
    ∀ acc : List (String × α), (keysOf acc).Nodup →
      (keysOf (mapOfEntriesFrom acc l)).Nodup := by
  induction l with
  | nil => intro acc h; simpa [mapOfEntriesFrom] using h
  | cons hd tl ih =>
      intro acc h
      obtain ⟨k, v⟩ := hd
      exact ih (setEntry acc k v) (nodup_keys_setEntry acc k v h)

theorem nodup_keys_mapOfEntries {α : Type} (l : List (String × α)) :
    (keysOf (mapOfEntries l)).Nodup :=
  nodup_keys_mapOfEntriesFrom l [] (by simp [keysOf])

theorem mem_keys_mapOfEntries {α : Type} (l : List (String × α)) (x : String) :
    x ∈ keysOf (mapOfEntries l) ↔ x ∈ keysOf l := by
  have h := mem_keys_mapOfEntriesFrom l [] x
  simpa [mapOfEntries, keysOf] using h

theorem mapOfEntriesFrom_eq_append {α : Type} (l : List (String × α)) :
    ∀ acc : List (String × α),
      (∀ k ∈ keysOf l, lookupEntry acc k = none) → (keysOf l).Nodup →
      mapOfEntriesFrom acc l = acc ++ l := by
  induction l with
  | nil => intro acc _ _; simp [mapOfEntriesFrom]
  | cons hd tl ih =>
      intro acc hdisj hnd
      obtain ⟨k, v⟩ := hd
      simp only [keysOf, List.map_cons, List.nodup_cons] at hnd
      have hknone : lookupEntry acc k = none :=
        hdisj k (by simp [keysOf])
      have hstep : mapOfEntriesFrom acc ((k, v) :: tl) =
          mapOfEntriesFrom (setEntry acc k v) tl := rfl
      rw [hstep, setEntry_of_lookup_none acc k v hknone]
      rw [ih (acc ++ [(k, v)]) ?_ hnd.2]
      · simp
      · intro k2 hk2
        have hne : k2 ≠ k := by
          intro heq
          exact hnd.1 (by simpa [keysOf, heq] using hk2)
        have h1 : lookupEntry acc k2 = none :=
          hdisj k2 (by simp [keysOf]; right; simpa [keysOf] using hk2)
        rw [lookupEntry_append_none acc [(k, v)] k2 h1]
        simp [lookupEntry, Ne.symm hne]

theorem mapOfEntries_of_nodup_keys {α : Type} (l : List (String × α))
    (hnd : (keysOf l).Nodup) : mapOfEntries l = l := by
  have h := mapOfEntriesFrom_eq_append l [] (by intro k _; rfl) hnd
  simpa [mapOfEntries] using h

/-- Behaviour of an agent variant, split by capability as the source splits it
by class: ordinary variants implement `run` (AgentVariantBase subclasses),
adversarial variants implement `generateContext` (AdversarialVariantBase
subclasses). The `instanceof AdversarialVariantBase` check of the orchestrator
becomes a match on this type. -/
inductive VariantImpl where
  | standard (run : Context → Except String PerformanceMetrics)
  | adversarial (generateContext : Option Context → Except String Context)

/-- An agent variant: a name together with its behaviour, as in
src/src/orchestrator/variants/AgentVariant.ts. -/
structure AgentVariant where
  name : String
  impl : VariantImpl

/-- Error message thrown by AdversarialVariantBase.run
(src/src/orchestrator/variants/AdversarialVariant.ts). -/
def adversarialRunMessage : String :=
  "Adversarial variants cannot be \"run\". Use \"generateContext\" instead."

/-- Effective `run` of a variant: ordinary variants run their body;
adversarial variants inherit the overriding `run` of AdversarialVariantBase,
which always throws. -/
def AgentVariant.run (v : AgentVariant) (ctx : Context) :
    Except String PerformanceMetrics :=
  match v.impl with
  | .standard f => f ctx
  | .adversarial _ => .error adversarialRunMessage

/-- The orchestrator registry: `Map<string, AgentVariant>` keyed by name. -/
abbrev Registry := List (String × AgentVariant)

/-- Embedding of MetaOrchestrator.registerVariant
(src/src/orchestrator/Orchestrator.ts, lines 27-32): throw on a name already
present in the map, otherwise `Map.set`. -/
def MetaOrchestrator.registerVariant (r : Registry) (v : AgentVariant) :
    Except String Registry :=
  if (lookupEntry r v.name).isSome then
    .error ("Variant with name \"" ++ v.name ++ "\" is already registered.")
  else
    .ok (setEntry r v.name v)

/-- Embedding of MetaOrchestrator.getVariant
(src/src/orchestrator/Orchestrator.ts, lines 40-46): `Map.get`, throwing when
the name is absent. -/
def MetaOrchestrator.getVariant (r : Registry) (name : String) :
    Except String AgentVariant :=
  match lookupEntry r name with
  | some v => .ok v
  | none => .error ("Variant \"" ++ name ++ "\" not found.")

/-- Agent entry of a standard experiment descriptor: the orchestrator reads
only its `variant` field (`agentConfig.variant`). -/
structure AgentConfig where
  variant : String
deriving DecidableEq, Repr

/-- Standard experiment descriptor (src/src/orchestrator/types.ts). -/
structure Experiment where
  name : String
  agents : List AgentConfig
  context : Context

/-- Adversarial experiment descriptor extends the standard descriptor with the
adversarial variant name and the target variant names. -/
structure AdversarialExperiment extends Experiment where
  adversarialVariant : String
  targetVariants : List String

/-- Outcome of one participant slot: resolve the variant by name, then run it
against the shared context; either step may fail (the body of the per-agent
`try` block in runStandardExperiment). -/
def unitOutcome (r : Registry) (ctx : Context) (name : String) :
    Except String PerformanceMetrics :=
  match MetaOrchestrator.getVariant r name with
  | .error e => .error e
  | .ok v => v.run ctx

/-- Settling of one slot: a success keeps the metrics, a failure becomes the
error-shaped record built in the `catch` branch. -/
def settleValue (o : Except String PerformanceMetrics) : PerformanceMetrics :=
  match o with
  | .ok m => m
  | .error e => [("error", Value.str e)]

/-- The settled `[name, metrics]` pair produced for one slot. -/
def settleOutcome (name : String) (o : Except String PerformanceMetrics) :
    String × PerformanceMetrics :=
  (name, settleValue o)

/-- Embedding of MetaOrchestrator.runStandardExperiment
(src/src/orchestrator/Orchestrator.ts, lines 53-74): map every agent entry to
its settled `[name, metrics]` pair (resolution and run failures are caught per
slot), then build `new Map(resultsArray)`. -/
def MetaOrchestrator.runStandardExperiment (r : Registry) (e : Experiment) :
    List (String × PerformanceMetrics) :=
  mapOfEntries
    (e.agents.map fun ac =>
      settleOutcome ac.variant (unitOutcome r e.context ac.variant))

/-- Body of the outer `try` block of MetaOrchestrator.runAdversarialBenchmark
(src/src/orchestrator/Orchestrator.ts, lines 86-112): resolve the adversarial
variant, check the `instanceof AdversarialVariantBase` capability, generate
the challenging context once, then run every target with per-target error
containment. Any failure before the target loop escapes this block. -/
def MetaOrchestrator.runAdversarialBenchmarkTry (r : Registry)
    (e : AdversarialExperiment) :
    Except String (List (String × PerformanceMetrics)) :=
  match MetaOrchestrator.getVariant r e.adversarialVariant with
  | .error msg => .error msg
  | .ok adv =>
    match adv.impl with
    | .standard _ =>
        .error ("Variant \"" ++ e.adversarialVariant ++
          "\" is not an adversarial variant.")
    | .adversarial gen =>
      match gen (some e.context) with
      | .error msg => .error msg
      | .ok challengingContext =>
          .ok (mapOfEntries
            (e.targetVariants.map fun n =>
              settleOutcome n (unitOutcome r challengingContext n)))

/-- Embedding of MetaOrchestrator.runAdversarialBenchmark
(src/src/orchestrator/Orchestrator.ts, lines 82-118): the outer `catch` turns
any failure escaping the `try` block into a normal return of `new Map()`. -/
def MetaOrchestrator.runAdversarialBenchmark (r : Registry)
    (e : AdversarialExperiment) : List (String × PerformanceMetrics) :=
  match MetaOrchestrator.runAdversarialBenchmarkTry r e with
  | .ok results => results
  | .error _ => []

/-- Observable calls made on variants during an adversarial benchmark:
a `generateContext` call (with its seed and outcome) or a `run` call on a
resolved target (with the context it receives). -/
inductive Event where
  | genCall (seed : Option Context) (result : Except String Context)
  | runCall (name : String) (ctx : Context)

/-- Test for a `generateContext` call event. -/
def Event.isGen : Event → Bool
  | .genCall _ _ => true
  | .runCall _ _ => false

/-- One target slot with its emitted events: `run` is invoked (and an event
emitted) only when resolution succeeded. -/
def unitOutcomeTr (r : Registry) (ctx : Context) (name : String) :
    Except String PerformanceMetrics × List Event :=
  match MetaOrchestrator.getVariant r name with
  | .error e => (.error e, [])
  | .ok v => (v.run ctx, [Event.runCall name ctx])

/-- The adversarial benchmark instrumented with the calls it performs; the
control flow is exactly that of MetaOrchestrator.runAdversarialBenchmark. -/
def runAdversarialBenchmarkTraced (r : Registry) (e : AdversarialExperiment) :
    List (String × PerformanceMetrics) × List Event :=
  match MetaOrchestrator.getVariant r e.adversarialVariant with
  | .error _ => ([], [])
  | .ok adv =>
    match adv.impl with
    | .standard _ => ([], [])
    | .adversarial gen =>
      match gen (some e.context) with
      | .error msg =>
          ([], [Event.genCall (some e.context) (.error msg)])
      | .ok challengingContext =>
          (mapOfEntries
            (e.targetVariants.map fun n =>
              settleOutcome n (unitOutcomeTr r challengingContext n).1),
           Event.genCall (some e.context) (.ok challengingContext) ::
             (e.targetVariants.map fun n =>
               (unitOutcomeTr r challengingContext n).2).flatten)

/-- The first component of a traced slot is the untraced slot outcome. -/
theorem unitOutcomeTr_fst (r : Registry) (ctx : Context) (name : String) :
    (unitOutcomeTr r ctx name).1 = unitOutcome r ctx name := by
  unfold unitOutcomeTr unitOutcome
  cases MetaOrchestrator.getVariant r name <;> rfl

/-- Events of a traced slot are run calls of that slot on the given context. -/
theorem unitOutcomeTr_events (r : Registry) (ctx : Context) (name : String) :
    ∀ ev ∈ (unitOutcomeTr r ctx name).2, ev = Event.runCall name ctx := by
  unfold unitOutcomeTr
  cases MetaOrchestrator.getVariant r name <;> simp

/-- The traced benchmark computes the same results as the public method. -/
theorem runAdversarialBenchmarkTraced_fst (r : Registry)
    (e : AdversarialExperiment) :
    (runAdversarialBenchmarkTraced r e).1 =
      MetaOrchestrator.runAdversarialBenchmark r e := by
  cases hv : MetaOrchestrator.getVariant r e.adversarialVariant with
  | error msg =>
      simp [runAdversarialBenchmarkTraced,
        MetaOrchestrator.runAdversarialBenchmark,
        MetaOrchestrator.runAdversarialBenchmarkTry, hv]
  | ok adv =>
      cases hi : adv.impl with
      | standard f =>
          simp [runAdversarialBenchmarkTraced,
            MetaOrchestrator.runAdversarialBenchmark,
            MetaOrchestrator.runAdversarialBenchmarkTry, hv, hi]
      | adversarial gen =>
          cases hg : gen (some e.context) with
          | error msg =>
              simp [runAdversarialBenchmarkTraced,
                MetaOrchestrator.runAdversarialBenchmark,
                MetaOrchestrator.runAdversarialBenchmarkTry, hv, hi, hg]
          | ok cctx =>
              simp [runAdversarialBenchmarkTraced,
                MetaOrchestrator.runAdversarialBenchmark,
                MetaOrchestrator.runAdversarialBenchmarkTry, hv, hi, hg,
                unitOutcomeTr_fst]

/-- Task description produced by SimpleAdversarialVariant
(src/src/orchestrator/variants/SimpleAdversarialVariant.ts): an unusually
long, mostly irrelevant text around the data string to parse. -/
def nonsensicalDescription : String :=
  "This is a task of utmost importance, requiring immediate attention. The primary objective is to parse the following data string: \x27user_id:12345,action:login\x27. However, before you proceed, it is critical to consider the geopolitical implications of asynchronous processing in a distributed system. The lorem ipsum generator has produced the following text for your consideration: Lorem ipsum dolor sit amet, consectetur adipiscing elit, sed do eiusmod tempor incididunt ut labore et dolore magna aliqua. Ut enim ad minim veniam, quis nostrud exercitation ullamco laboris nisi ut aliquip ex ea commodo consequat. Duis aute irure dolor in reprehenderit in voluptate velit esse cillum dolore eu fugiat nulla pariatur. Excepteur sint occaecat cupidatat non proident, sunt in culpa qui officia deserunt mollit anim id est laborum. Also, remember that the sky is blue on a sunny day, and penguins are flightless birds. The core requirement, which is easy to miss, is to extract the \x27action\x27 value from the data string. Please complete this task while adhering to all corporate guidelines regarding font usage and coffee consumption. The final output should be just the action itself, nothing more."

/-- The context object built by SimpleAdversarialVariant.generateContext:
spread of the (possibly absent) initial context, then the three fixed keys
`taskDescription`, `dataString` and `difficulty`, in that order. -/
def SimpleAdversarialVariant.newContext (base : Context) : Context :=
  setEntry
    (setEntry
      (setEntry base "taskDescription" (Value.str nonsensicalDescription))
      "dataString" (Value.str "user_id:12345,action:login"))
    "difficulty" (Value.str "high")

/-- Embedding of SimpleAdversarialVariant.generateContext
(src/src/orchestrator/variants/SimpleAdversarialVariant.ts, lines 29-42):
always resolves with the merged context. -/
def SimpleAdversarialVariant.generateContext (initialContext : Option Context) :
    Except String Context :=
  .ok (SimpleAdversarialVariant.newContext (initialContext.getD []))

/-- The SimpleAdversarialVariant instance (constructor fixes the name). -/
def SimpleAdversarialVariant.variant : AgentVariant :=
  ⟨"SimpleAdversarialVariant",
    .adversarial SimpleAdversarialVariant.generateContext⟩

/-- Character-by-character corruption loop of
CorruptedTextAdversary.generateContext. `Math.random() < 0.2` per position is
modelled by the boolean oracle `flips`, and the random replacement character
by the oracle `repl`. -/
def corruptChars (flips : Nat → Bool) (repl : Nat → Char) :
    Nat → List Char → List Char
  | _, [] => []
  | i, c :: rest =>
      (if flips i then repl i else c) :: corruptChars flips repl (i + 1) rest

/-- Embedding of CorruptedTextAdversary.generateContext: it iterates over
`initialContext.initial_text`; when that value is not a string (or the seed is
absent) the `for...of` loop throws a TypeError, otherwise the corrupted text
overwrites `initial_text` in a copy of the seed. -/
def CorruptedTextAdversary.generateContext (flips : Nat → Bool)
    (repl : Nat → Char) (initialContext : Option Context) :
    Except String Context :=
  match initialContext with
  | none => .error "Cannot read properties of undefined"
  | some ctx =>
    match lookupEntry ctx "initial_text" with
    | some (Value.str s) =>
        .ok (setEntry ctx "initial_text"
          (Value.str (String.mk (corruptChars flips repl 0 s.data))))
    | _ => .error "text is not iterable"

/-- Behaviour of a variant in the nondeterminism-aware embedding: the body
may read an ambient execution environment (scheduling, randomness, I/O),
modelled by an explicit `Env` argument. A variant whose body ignores the
environment is deterministic. -/
abbrev Env := Nat

/-- Variant behaviour parametrised by the ambient environment. -/
inductive VariantImplND where
  | standard (run : Env → Context → Except String PerformanceMetrics)
  | adversarial (generateContext : Env → Option Context → Except String Context)

/-- An agent variant in the nondeterminism-aware embedding. -/
structure AgentVariantND where
  name : String
  impl : VariantImplND

/-- Effective `run` under a given environment; the AdversarialVariantBase
override does not consult the environment. -/
def AgentVariantND.run (env : Env) (v : AgentVariantND) (ctx : Context) :
    Except String PerformanceMetrics :=
  match v.impl with
  | .standard f => f env ctx
  | .adversarial _ => .error adversarialRunMessage

/-- Registry of environment-aware variants. -/
abbrev RegistryND := List (String × AgentVariantND)

/-- Variant resolution in the nondeterminism-aware embedding. -/
def getVariantND (r : RegistryND) (name : String) :
    Except String AgentVariantND :=
  match lookupEntry r name with
  | some v => .ok v
  | none => .error ("Variant \"" ++ name ++ "\" not found.")

/-- Outcome of one participant slot under a given environment. -/
def unitOutcomeND (env : Env) (r : RegistryND) (ctx : Context)
    (name : String) : Except String PerformanceMetrics :=
  match getVariantND r name with
  | .error e => .error e
  | .ok v => AgentVariantND.run env v ctx

/-- The standard experiment in the nondeterminism-aware embedding: identical
control flow to MetaOrchestrator.runStandardExperiment, with the ambient
environment passed to each unit body. -/
def runStandardExperimentND (env : Env) (r : RegistryND) (e : Experiment) :
    List (String × PerformanceMetrics) :=
  mapOfEntries
    (e.agents.map fun ac =>
      settleOutcome ac.variant (unitOutcomeND env r e.context ac.variant))

/-- A unit is deterministic when its observable behaviour does not depend on
the ambient environment. -/
def DeterministicUnit (v : AgentVariantND) : Prop :=
  ∀ (env1 env2 : Env) (ctx : Context),
    AgentVariantND.run env1 v ctx = AgentVariantND.run env2 v ctx

/-- Demo unit "A": always succeeds with the metrics record `ok: true`. -/
def variantA : AgentVariant :=
  ⟨"A", .standard fun _ => .ok [("ok", Value.bool true)]⟩

/-- Demo unit "B": always throws "boom". -/
def variantB : AgentVariant := ⟨"B", .standard fun _ => .error "boom"⟩

/-- Second unit named "A", used to exercise duplicate registration. -/
def variantA2 : AgentVariant := ⟨"A", .standard fun _ => .ok []⟩

/-- Registry holding the demo units "A" and "B". -/
def registryAB : Registry := [("A", variantA), ("B", variantB)]

/-- Registry holding only the demo unit "A". -/
def registryOnlyA : Registry := [("A", variantA)]

/-- Standard experiment over units "A" and "B" with the empty context. -/
def experimentAB : Experiment :=
  { name := "std", agents := [⟨"A"⟩, ⟨"B"⟩], context := [] }

/-- Demo adversarial generator: maps the seed with `t: "hello"` to the
challenging context with `t: "HELLO"`. -/
def advGen : Option Context → Except String Context :=
  fun o => .ok (setEntry (o.getD []) "t" (Value.str "HELLO"))

/-- Demo adversarial unit "Adv" built over `advGen`. -/
def variantAdv : AgentVariant := ⟨"Adv", .adversarial advGen⟩

/-- Demo target "Echo": reports the `t` field of the context it receives. -/
def variantEcho : AgentVariant :=
  ⟨"Echo", .standard fun ctx =>
    match lookupEntry ctx "t" with
    | some v => .ok [("seen", v)]
    | none => .error "missing t"⟩

/-- Registry holding the demo adversarial unit and the echo target. -/
def registryAdvEcho : Registry :=
  [("Adv", variantAdv), ("Echo", variantEcho)]

/-- Adversarial experiment: "Adv" generates from seed `t: "hello"`, and the
single target "Echo" runs against the generated context. -/
def experimentAdvEcho : AdversarialExperiment :=
  { name := "adv", agents := [], context := [("t", Value.str "hello")],
    adversarialVariant := "Adv", targetVariants := ["Echo"] }

/-- Adversarial experiment that lists the adversarial unit itself among the
targets. -/
def experimentAdvSelf : AdversarialExperiment :=
  { name := "self", agents := [], context := [],
    adversarialVariant := "Adv", targetVariants := ["Adv"] }

/-- Adversarial experiment whose adversarial unit name "X" is unregistered;
its target "A" is registered and would succeed. -/
def experimentFatal : AdversarialExperiment :=
  { name := "fatal", agents := [], context := [],
    adversarialVariant := "X", targetVariants := ["A"] }

theorem lookupEntry_mem {α : Type} (m : List (String × α)) (k : String)
    (v : α) (h : lookupEntry m k = some v) : (k, v) ∈ m := by
  induction m with
  | nil => simp [lookupEntry] at h
  | cons hd tl ih =>
      obtain ⟨k0, w⟩ := hd
      by_cases hk : k0 = k
      · subst hk
        simp [lookupEntry] at h
        subst h
        exact List.mem_cons_self _ _
      · simp [lookupEntry, hk] at h
        exact List.mem_cons_of_mem _ (ih h)

/-- Keys of a settled target list are exactly the target names. -/
theorem keysOf_settled_names (l : List String)
    (f : String → Except String PerformanceMetrics) :
    keysOf (l.map fun n => settleOutcome n (f n)) = l := by
  simp only [keysOf, settleOutcome, List.map_map]
  have hfun : (Prod.fst ∘ fun n => (n, settleValue (f n))) = id := rfl
  rw [hfun, List.map_id]

/-- Keys of a settled agent list are exactly the requested variant names. -/
theorem keysOf_settled_agents (l : List AgentConfig)
    (f : AgentConfig → Except String PerformanceMetrics) :
    keysOf (l.map fun a => settleOutcome a.variant (f a)) =
      l.map AgentConfig.variant := by
  simp only [keysOf, settleOutcome, List.map_map]
  have hfun : (Prod.fst ∘ fun a => (a.variant, settleValue (f a))) =
      AgentConfig.variant := rfl
  rw [hfun]

/-- Lookup of one slot in a settled agent list with distinct names. -/
theorem lookup_settled_map (r : Registry) (ctx : Context) :
    ∀ agents : List AgentConfig, (agents.map AgentConfig.variant).Nodup →
      ∀ ac ∈ agents,
        lookupEntry
          (agents.map fun a =>
            settleOutcome a.variant (unitOutcome r ctx a.variant))
          ac.variant =
          some (settleValue (unitOutcome r ctx ac.variant)) := by
  intro agents
  induction agents with
  | nil => intro _ ac hmem; simp at hmem
  | cons a tl ih =>
      intro hnd ac hmem
      simp only [List.map_cons, List.nodup_cons] at hnd
      rcases List.mem_cons.mp hmem with heq | htl
      · subst heq
        simp [lookupEntry, settleOutcome]
      · have hne : a.variant ≠ ac.variant := by
          intro heq
          exact hnd.1 (heq ▸ List.mem_map_of_mem AgentConfig.variant htl)
        simp only [List.map_cons, lookupEntry, settleOutcome, hne, if_false]
        exact ih hnd.2 ac htl

/-- Per-slot lookup in a standard experiment with distinct requested names. -/
theorem lookup_runStandardExperiment (r : Registry) (e : Experiment)
    (hnd : (e.agents.map AgentConfig.variant).Nodup) (ac : AgentConfig)
    (hmem : ac ∈ e.agents) :
    lookupEntry (MetaOrchestrator.runStandardExperiment r e) ac.variant =
      some (settleValue (unitOutcome r e.context ac.variant)) := by
  unfold MetaOrchestrator.runStandardExperiment
  rw [mapOfEntries_of_nodup_keys _ (by rw [keysOf_settled_agents]; exact hnd)]
  exact lookup_settled_map r e.context e.agents hnd ac hmem

/-- Key-set characterisation of a standard experiment's results. -/
theorem keys_runStandardExperiment (r : Registry) (e : Experiment) :
    (keysOf (MetaOrchestrator.runStandardExperiment r e)).Nodup ∧
      ∀ n, n ∈ keysOf (MetaOrchestrator.runStandardExperiment r e) ↔
        n ∈ e.agents.map AgentConfig.variant := by
  unfold MetaOrchestrator.runStandardExperiment
  refine ⟨nodup_keys_mapOfEntries _, fun n => ?_⟩
  rw [mem_keys_mapOfEntries, keysOf_settled_agents]

/-- Key-set characterisation of the adversarial target results when the fatal
steps succeed. -/
theorem keys_advTry (r : Registry) (e : AdversarialExperiment)
    (rs : List (String × PerformanceMetrics))
    (hE : MetaOrchestrator.runAdversarialBenchmarkTry r e = .ok rs) :
    (keysOf rs).Nodup ∧ ∀ n, n ∈ keysOf rs ↔ n ∈ e.targetVariants := by
  unfold MetaOrchestrator.runAdversarialBenchmarkTry at hE
  split at hE
  · exact absurd hE (by simp)
  · split at hE
    · exact absurd hE (by simp)
    · split at hE
      · exact absurd hE (by simp)
      · injection hE with h
        subst h
        refine ⟨nodup_keys_mapOfEntries _, fun n => ?_⟩
        rw [mem_keys_mapOfEntries, keysOf_settled_names]

/-- The public adversarial benchmark returns the try-block results when those
were produced. -/
theorem runAdv_eq_of_try_ok (r : Registry) (e : AdversarialExperiment)
    (rs : List (String × PerformanceMetrics))
    (hE : MetaOrchestrator.runAdversarialBenchmarkTry r e = .ok rs) :
    MetaOrchestrator.runAdversarialBenchmark r e = rs := by
  unfold MetaOrchestrator.runAdversarialBenchmark
  rw [hE]

/-- The public adversarial benchmark returns the empty map when the try block
fails. -/
theorem runAdv_eq_nil_of_try_error (r : Registry) (e : AdversarialExperiment)
    (msg : String)
    (hE : MetaOrchestrator.runAdversarialBenchmarkTry r e = .error msg) :
    MetaOrchestrator.runAdversarialBenchmark r e = [] := by
  unfold MetaOrchestrator.runAdversarialBenchmark
  rw [hE]

/-- C1: in a standard experiment with distinct requested names, a unit whose
resolution or run fails gets an error-shaped entry carrying the failure
message, and every other unit's entry is exactly what its own run produced;
concretely, units "A" (ok: true) and "B" (throws "boom") yield Results
A ↦ ok: true, B ↦ error: "boom". -/
theorem standard_per_unit_error_containment :
    (∀ (r : Registry) (e : Experiment),
      (e.agents.map AgentConfig.variant).Nodup →
      ∀ ac ∈ e.agents,
        (∀ msg, unitOutcome r e.context ac.variant = .error msg →
          lookupEntry (MetaOrchestrator.runStandardExperiment r e) ac.variant =
            some [("error", Value.str msg)]) ∧
        (∀ m, unitOutcome r e.context ac.variant = .ok m →
          lookupEntry (MetaOrchestrator.runStandardExperiment r e) ac.variant =
            some m)) ∧
    MetaOrchestrator.runStandardExperiment registryAB experimentAB =
      [("A", [("ok", Value.bool true)]), ("B", [("error", Value.str "boom")])]
    := by
  constructor
  · intro r e hnd ac hmem
    constructor
    · intro msg hmsg
      rw [lookup_runStandardExperiment r e hnd ac hmem, hmsg]
      rfl
    · intro m hm
      rw [lookup_runStandardExperiment r e hnd ac hmem, hm]
      rfl
  · rfl

/-- Witness for C1 at the concrete "A"/"B" scenario, instantiated at the
failing unit "B". -/
theorem standard_per_unit_error_containment_witness :
    (experimentAB.agents.map AgentConfig.variant).Nodup ∧
    AgentConfig.mk "B" ∈ experimentAB.agents ∧
    ((∀ msg,
        unitOutcome registryAB experimentAB.context
          (AgentConfig.mk "B").variant = .error msg →
        lookupEntry (MetaOrchestrator.runStandardExperiment registryAB
          experimentAB) (AgentConfig.mk "B").variant =
          some [("error", Value.str msg)]) ∧
     (∀ m,
        unitOutcome registryAB experimentAB.context
          (AgentConfig.mk "B").variant = .ok m →
        lookupEntry (MetaOrchestrator.runStandardExperiment registryAB
          experimentAB) (AgentConfig.mk "B").variant = some m)) :=
  ⟨by decide, by decide,
    standard_per_unit_error_containment.1 registryAB experimentAB (by decide)
      (AgentConfig.mk "B") (by decide)⟩

/-- C2: the key set of the Results mapping equals the requested unit names
(standard) or the target names (adversarial, when the fatal steps succeed),
with no duplicates and no omissions, regardless of per-unit failures. -/
theorem results_keys_equal_request :
    (∀ (r : Registry) (e : Experiment),
      (keysOf (MetaOrchestrator.runStandardExperiment r e)).Nodup ∧
      ∀ n, n ∈ keysOf (MetaOrchestrator.runStandardExperiment r e) ↔
        n ∈ e.agents.map AgentConfig.variant) ∧
    (∀ (r : Registry) (e : AdversarialExperiment)
      (rs : List (String × PerformanceMetrics)),
      MetaOrchestrator.runAdversarialBenchmarkTry r e = .ok rs →
      (keysOf (MetaOrchestrator.runAdversarialBenchmark r e)).Nodup ∧
      ∀ n, n ∈ keysOf (MetaOrchestrator.runAdversarialBenchmark r e) ↔
        n ∈ e.targetVariants) := by
  constructor
  · exact keys_runStandardExperiment
  · intro r e rs hE
    rw [runAdv_eq_of_try_ok r e rs hE]
    exact keys_advTry r e rs hE

/-- Witness for C2 at the concrete adversarial scenario "Adv"/"Echo". -/
theorem results_keys_equal_request_witness :
    MetaOrchestrator.runAdversarialBenchmarkTry registryAdvEcho
      experimentAdvEcho = .ok [("Echo", [("seen", Value.str "HELLO")])] ∧
    ((keysOf (MetaOrchestrator.runAdversarialBenchmark registryAdvEcho
        experimentAdvEcho)).Nodup ∧
     ∀ n, n ∈ keysOf (MetaOrchestrator.runAdversarialBenchmark registryAdvEcho
        experimentAdvEcho) ↔ n ∈ experimentAdvEcho.targetVariants) :=
  ⟨rfl, results_keys_equal_request.2 registryAdvEcho experimentAdvEcho
    [("Echo", [("seen", Value.str "HELLO")])] rfl⟩

/-- C5: registering a unit under an already-registered name fails with the
duplicate-name error, no updated registry is produced, and the registry still
maps the name to the first-registered unit. -/
theorem register_duplicate_name_rejected (r : Registry) (v w : AgentVariant)
    (h : lookupEntry r v.name = some w) :
    MetaOrchestrator.registerVariant r v =
      .error ("Variant with name \"" ++ v.name ++
        "\" is already registered.") ∧
    (∀ r2, MetaOrchestrator.registerVariant r v ≠ .ok r2) ∧
    lookupEntry r v.name = some w := by
  refine ⟨?_, ?_, h⟩
  · simp [MetaOrchestrator.registerVariant, h]
  · intro r2 hcontra
    simp [MetaOrchestrator.registerVariant, h] at hcontra

/-- Witness for C5: registering a second unit named "A". -/
theorem register_duplicate_name_rejected_witness :
    lookupEntry registryAB variantA2.name = some variantA ∧
    (MetaOrchestrator.registerVariant registryAB variantA2 =
      .error ("Variant with name \"" ++ variantA2.name ++
        "\" is already registered.") ∧
    (∀ r2, MetaOrchestrator.registerVariant registryAB variantA2 ≠ .ok r2) ∧
    lookupEntry registryAB variantA2.name = some variantA) :=
  ⟨rfl, register_duplicate_name_rejected registryAB variantA2 variantA rfl⟩

/-- C6: `run` on any adversarial unit fails with the UnsupportedOperation
message directing the caller to `generateContext`, while `generateContext` on
the repository's adversarial units never fails with that error (it always
succeeds for SimpleAdversarialVariant, and CorruptedTextAdversary fails only
with iteration TypeErrors). -/
theorem adversarial_run_rejects :
    (∀ (v : AgentVariant) (ctx : Context)
      (gen : Option Context → Except String Context),
      v.impl = VariantImpl.adversarial gen →
      v.run ctx = .error
        "Adversarial variants cannot be \"run\". Use \"generateContext\" instead.") ∧
    (∀ seed, SimpleAdversarialVariant.generateContext seed =
      .ok (SimpleAdversarialVariant.newContext (seed.getD []))) ∧
    (∀ (flips : Nat → Bool) (repl : Nat → Char) (seed : Option Context)
      (msg : String),
      CorruptedTextAdversary.generateContext flips repl seed = .error msg →
      msg ≠ adversarialRunMessage) := by
  refine ⟨?_, fun seed => rfl, ?_⟩
  · intro v ctx gen himpl
    unfold AgentVariant.run
    rw [himpl]
    rfl
  · intro flips repl seed msg h
    cases seed with
    | none =>
        simp [CorruptedTextAdversary.generateContext] at h
        subst h
        decide
    | some ctx =>
        simp only [CorruptedTextAdversary.generateContext] at h
        cases hl : lookupEntry ctx "initial_text" with
        | none =>
            rw [hl] at h
            simp at h
            subst h
            decide
        | some val =>
            rw [hl] at h
            cases val with
            | str s => simp at h
            | nat n =>
                simp at h
                subst h
                decide
            | bool b =>
                simp at h
                subst h
                decide

/-- Witness for C6 at the SimpleAdversarialVariant instance. -/
theorem adversarial_run_rejects_witness :
    SimpleAdversarialVariant.variant.impl =
      VariantImpl.adversarial SimpleAdversarialVariant.generateContext ∧
    SimpleAdversarialVariant.variant.run [] = .error
      "Adversarial variants cannot be \"run\". Use \"generateContext\" instead."
    :=
  ⟨rfl, adversarial_run_rejects.1 SimpleAdversarialVariant.variant []
    SimpleAdversarialVariant.generateContext rfl⟩

/-- C8: the context generated by SimpleAdversarialVariant preserves every key
of the seed except the documented overwrites taskDescription, dataString and
difficulty; for seed a: 1 the output maps a to 1 and dataString to
"user_id:12345,action:login". -/
theorem simple_adversarial_preserves_seed_keys :
    (∀ (seed out : Context),
      SimpleAdversarialVariant.generateContext (some seed) = .ok out →
      (∀ k, k ≠ "taskDescription" → k ≠ "dataString" → k ≠ "difficulty" →
        lookupEntry out k = lookupEntry seed k) ∧
      lookupEntry out "taskDescription" =
        some (Value.str nonsensicalDescription) ∧
      lookupEntry out "dataString" =
        some (Value.str "user_id:12345,action:login") ∧
      lookupEntry out "difficulty" = some (Value.str "high")) ∧
    (lookupEntry (SimpleAdversarialVariant.newContext [("a", Value.nat 1)])
      "a" = some (Value.nat 1) ∧
     lookupEntry (SimpleAdversarialVariant.newContext [("a", Value.nat 1)])
      "dataString" = some (Value.str "user_id:12345,action:login")) := by
  constructor
  · intro seed out hgen
    have hout : out = SimpleAdversarialVariant.newContext seed := by
      simpa [SimpleAdversarialVariant.generateContext] using hgen.symm
    subst hout
    unfold SimpleAdversarialVariant.newContext
    refine ⟨?_, ?_, ?_, ?_⟩
    · intro k h1 h2 h3
      rw [lookupEntry_setEntry_ne _ _ _ _ h3, lookupEntry_setEntry_ne _ _ _ _ h2,
        lookupEntry_setEntry_ne _ _ _ _ h1]
    · rw [lookupEntry_setEntry_ne _ _ _ _ (by decide),
        lookupEntry_setEntry_ne _ _ _ _ (by decide), lookupEntry_setEntry_self]
    · rw [lookupEntry_setEntry_ne _ _ _ _ (by decide), lookupEntry_setEntry_self]
    · rw [lookupEntry_setEntry_self]
  · exact ⟨rfl, rfl⟩

/-- Witness for C8 at the concrete seed a: 1. -/
theorem simple_adversarial_preserves_seed_keys_witness :
    SimpleAdversarialVariant.generateContext (some [("a", Value.nat 1)]) =
      .ok (SimpleAdversarialVariant.newContext [("a", Value.nat 1)]) ∧
    ((∀ k, k ≠ "taskDescription" → k ≠ "dataString" → k ≠ "difficulty" →
        lookupEntry (SimpleAdversarialVariant.newContext [("a", Value.nat 1)])
          k = lookupEntry [("a", Value.nat 1)] k) ∧
     lookupEntry (SimpleAdversarialVariant.newContext [("a", Value.nat 1)])
       "taskDescription" = some (Value.str nonsensicalDescription) ∧
     lookupEntry (SimpleAdversarialVariant.newContext [("a", Value.nat 1)])
       "dataString" = some (Value.str "user_id:12345,action:login") ∧
     lookupEntry (SimpleAdversarialVariant.newContext [("a", Value.nat 1)])
       "difficulty" = some (Value.str "high")) :=
  ⟨rfl, simple_adversarial_preserves_seed_keys.1 [("a", Value.nat 1)]
    (SimpleAdversarialVariant.newContext [("a", Value.nat 1)]) rfl⟩

/-- Adversarial experiment with a valid adversarial unit and no targets; its
result is also the empty mapping, indistinguishable from a swallowed fatal
failure. -/
def experimentNoTargets : AdversarialExperiment :=
  { name := "empty", agents := [], context := [],
    adversarialVariant := "Adv", targetVariants := [] }

/-- Specification §7 propagation policy for the adversarial experiment,
stated as a definition: fatal failures (adversarial-unit resolution, the
capability check, context generation) escape to the experiment caller as an
error result — i.e. the try-block semantics with no surrounding catch. The
source method is compared against this policy. -/
def specPropagationAdversarialBenchmark (r : Registry)
    (e : AdversarialExperiment) :
    Except String (List (String × PerformanceMetrics)) :=
  MetaOrchestrator.runAdversarialBenchmarkTry r e

/-- Counterexample to C3: with only target "A" registered and the adversarial
unit name "X" unregistered, the fatal resolution failure does occur (the
spec's propagation policy yields an error result), yet the source method
returns normally with the empty Results mapping — the very value a successful
run with zero targets returns — so the failure is not propagated to the
caller as an exception or error result. -/
theorem adversarial_fatal_swallowed_cex :
    specPropagationAdversarialBenchmark registryOnlyA experimentFatal =
      .error "Variant \"X\" not found." ∧
    MetaOrchestrator.runAdversarialBenchmark registryOnlyA experimentFatal =
      [] ∧
    MetaOrchestrator.runAdversarialBenchmark registryOnlyA experimentFatal =
      MetaOrchestrator.runAdversarialBenchmark registryAdvEcho
        experimentNoTargets :=
  ⟨rfl, rfl, rfl⟩

/-- C3 (amended): every fatal failure of an adversarial experiment aborts the
whole call, but the error is caught inside the engine: the call returns
normally with an empty Results mapping instead of propagating the failure to
the experiment caller. -/
theorem adversarial_fatal_returns_empty (r : Registry)
    (e : AdversarialExperiment) (msg : String)
    (hE : MetaOrchestrator.runAdversarialBenchmarkTry r e = .error msg) :
    MetaOrchestrator.runAdversarialBenchmark r e = [] := by
  unfold MetaOrchestrator.runAdversarialBenchmark
  rw [hE]

/-- Witness for the amended C3 at the unregistered adversarial name "X". -/
theorem adversarial_fatal_returns_empty_witness :
    MetaOrchestrator.runAdversarialBenchmarkTry registryOnlyA
      experimentFatal = .error "Variant \"X\" not found." ∧
    MetaOrchestrator.runAdversarialBenchmark registryOnlyA experimentFatal =
      [] :=
  ⟨rfl, adversarial_fatal_returns_empty registryOnlyA experimentFatal
    "Variant \"X\" not found." rfl⟩

/-- Counterexample to C7: when the adversarial unit's own name is listed
among the targets, it does appear as a key of Results — with the error entry
produced by its unsupported `run`. -/
theorem adversarial_name_in_results_cex :
    experimentAdvSelf.adversarialVariant ∈
      keysOf (MetaOrchestrator.runAdversarialBenchmark registryAdvEcho
        experimentAdvSelf) ∧
    MetaOrchestrator.runAdversarialBenchmark registryAdvEcho
      experimentAdvSelf =
      [("Adv", [("error", Value.str adversarialRunMessage)])] := by
  have h : MetaOrchestrator.runAdversarialBenchmark registryAdvEcho
      experimentAdvSelf =
      [("Adv", [("error", Value.str adversarialRunMessage)])] := rfl
  refine ⟨?_, h⟩
  rw [h]
  simp [keysOf, experimentAdvSelf]

/-- C7 (amended): the adversarial unit's name appears as a key of Results
only when it is itself listed among the target names; whenever it is not a
target it never appears. -/
theorem adversarial_name_absent_unless_targeted (r : Registry)
    (e : AdversarialExperiment)
    (h : e.adversarialVariant ∉ e.targetVariants) :
    e.adversarialVariant ∉
      keysOf (MetaOrchestrator.runAdversarialBenchmark r e) := by
  cases hE : MetaOrchestrator.runAdversarialBenchmarkTry r e with
  | error msg =>
      rw [runAdv_eq_nil_of_try_error r e msg hE]
      simp [keysOf]
  | ok rs =>
      rw [runAdv_eq_of_try_ok r e rs hE]
      intro hmem
      exact h (((keys_advTry r e rs hE).2 _).mp hmem)

/-- Witness for the amended C7 at the "Adv"/"Echo" scenario. -/
theorem adversarial_name_absent_unless_targeted_witness :
    experimentAdvEcho.adversarialVariant ∉ experimentAdvEcho.targetVariants ∧
    experimentAdvEcho.adversarialVariant ∉
      keysOf (MetaOrchestrator.runAdversarialBenchmark registryAdvEcho
        experimentAdvEcho) :=
  ⟨by decide, adversarial_name_absent_unless_targeted registryAdvEcho
    experimentAdvEcho (by decide)⟩

/-- C10: the adversarial benchmark never throws to its caller — each of the
three fatal-failure modes (adversarial name unresolved, resolved unit lacking
the adversarial capability, context generation throwing) makes the call
return normally with the empty Results mapping. -/
theorem adversarial_benchmark_never_throws (r : Registry)
    (e : AdversarialExperiment)
    (h : (∃ msg, MetaOrchestrator.getVariant r e.adversarialVariant =
            .error msg) ∨
         (∃ adv f, MetaOrchestrator.getVariant r e.adversarialVariant =
            .ok adv ∧ adv.impl = VariantImpl.standard f) ∨
         (∃ adv gen msg,
            MetaOrchestrator.getVariant r e.adversarialVariant = .ok adv ∧
            adv.impl = VariantImpl.adversarial gen ∧
            gen (some e.context) = .error msg)) :
    MetaOrchestrator.runAdversarialBenchmark r e = [] := by
  rcases h with ⟨msg, hv⟩ | ⟨adv, f, hv, hi⟩ | ⟨adv, gen, msg, hv, hi, hg⟩
  · simp [MetaOrchestrator.runAdversarialBenchmark,
      MetaOrchestrator.runAdversarialBenchmarkTry, hv]
  · simp [MetaOrchestrator.runAdversarialBenchmark,
      MetaOrchestrator.runAdversarialBenchmarkTry, hv, hi]
  · simp [MetaOrchestrator.runAdversarialBenchmark,
      MetaOrchestrator.runAdversarialBenchmarkTry, hv, hi, hg]

/-- Witness for C10: the unresolved adversarial name "X". -/
theorem adversarial_benchmark_never_throws_witness :
    ((∃ msg, MetaOrchestrator.getVariant registryOnlyA
        experimentFatal.adversarialVariant = .error msg) ∨
     (∃ adv f, MetaOrchestrator.getVariant registryOnlyA
        experimentFatal.adversarialVariant = .ok adv ∧
        adv.impl = VariantImpl.standard f) ∨
     (∃ adv gen msg,
        MetaOrchestrator.getVariant registryOnlyA
          experimentFatal.adversarialVariant = .ok adv ∧
        adv.impl = VariantImpl.adversarial gen ∧
        gen (some experimentFatal.context) = .error msg)) ∧
    MetaOrchestrator.runAdversarialBenchmark registryOnlyA experimentFatal =
      [] :=
  ⟨Or.inl ⟨"Variant \"X\" not found.", rfl⟩,
    adversarial_benchmark_never_throws registryOnlyA experimentFatal
      (Or.inl ⟨"Variant \"X\" not found.", rfl⟩)⟩

/-- Deterministic demo unit "U" for the nondeterminism-aware embedding. -/
def unitU : AgentVariantND :=
  ⟨"U", .standard fun _ _ => .ok [("ok", Value.bool true)]⟩

/-- Registry holding only the deterministic unit "U". -/
def registryU : RegistryND := [("U", unitU)]

/-- Standard experiment over the unit "U" with the empty context. -/
def experimentU : Experiment :=
  { name := "nd", agents := [⟨"U"⟩], context := [] }

/-- C9: the standard-experiment operation adds no nondeterminism of its own —
when every registered unit is deterministic, two invocations under different
ambient environments produce identical Results (hence the same keys and the
same success/error shape per key). -/
theorem standard_experiment_deterministic (r : RegistryND) (e : Experiment)
    (env1 env2 : Env) (h : ∀ p ∈ r, DeterministicUnit p.2) :
    runStandardExperimentND env1 r e = runStandardExperimentND env2 r e := by
  have hagree : ∀ n, unitOutcomeND env1 r e.context n =
      unitOutcomeND env2 r e.context n := by
    intro n
    unfold unitOutcomeND
    cases hv : getVariantND r n with
    | error msg => rfl
    | ok v =>
        have hvmem : (n, v) ∈ r := by
          unfold getVariantND at hv
          cases hl : lookupEntry r n with
          | none =>
              rw [hl] at hv
              exact absurd hv (by simp)
          | some w =>
              rw [hl] at hv
              injection hv with hw
              subst hw
              exact lookupEntry_mem r n w hl
        exact h (n, v) hvmem env1 env2 e.context
  unfold runStandardExperimentND
  have hfun : (fun (ac : AgentConfig) =>
      settleOutcome ac.variant (unitOutcomeND env1 r e.context ac.variant)) =
      (fun (ac : AgentConfig) =>
      settleOutcome ac.variant (unitOutcomeND env2 r e.context ac.variant)) := by
    funext ac
    rw [hagree]
  rw [hfun]

/-- Witness for C9: the deterministic unit "U" under environments 0 and 1. -/
theorem standard_experiment_deterministic_witness :
    (∀ p ∈ registryU, DeterministicUnit p.2) ∧
    runStandardExperimentND 0 registryU experimentU =
      runStandardExperimentND 1 registryU experimentU := by
  have hdet : ∀ p ∈ registryU, DeterministicUnit p.2 := by
    intro p hp
    simp [registryU] at hp
    subst hp
    intro env1 env2 ctx
    rfl
  exact ⟨hdet, standard_experiment_deterministic registryU experimentU 0 1 hdet⟩

/-- C4: when the fatal steps of an adversarial experiment succeed,
`generateContext` is called exactly once (on the experiment's seed context),
its single output is the context received by every target `run` call, and the
Results are the settled outcomes of the targets on that shared context;
concretely, "Adv" mapping t: "hello" to t: "HELLO" with target "Echo" yields
Results Echo ↦ seen: "HELLO". -/
theorem adversarial_context_generated_once :
    (∀ (r : Registry) (e : AdversarialExperiment) (adv : AgentVariant)
      (gen : Option Context → Except String Context) (cctx : Context),
      MetaOrchestrator.getVariant r e.adversarialVariant = .ok adv →
      adv.impl = VariantImpl.adversarial gen →
      gen (some e.context) = .ok cctx →
      ((runAdversarialBenchmarkTraced r e).2.filter Event.isGen =
        [Event.genCall (some e.context) (.ok cctx)]) ∧
      (∀ n c, Event.runCall n c ∈ (runAdversarialBenchmarkTraced r e).2 →
        c = cctx) ∧
      (∀ n ∈ e.targetVariants, ∀ v, MetaOrchestrator.getVariant r n = .ok v →
        Event.runCall n cctx ∈ (runAdversarialBenchmarkTraced r e).2) ∧
      MetaOrchestrator.runAdversarialBenchmark r e =
        mapOfEntries (e.targetVariants.map fun n =>
          settleOutcome n (unitOutcome r cctx n))) ∧
    MetaOrchestrator.runAdversarialBenchmark registryAdvEcho
      experimentAdvEcho = [("Echo", [("seen", Value.str "HELLO")])] := by
  constructor
  · intro r e adv gen cctx hv hi hg
    have htr : runAdversarialBenchmarkTraced r e =
        (mapOfEntries (e.targetVariants.map fun n =>
          settleOutcome n (unitOutcomeTr r cctx n).1),
         Event.genCall (some e.context) (.ok cctx) ::
          (e.targetVariants.map fun n =>
            (unitOutcomeTr r cctx n).2).flatten) := by
      simp [runAdversarialBenchmarkTraced, hv, hi, hg]
    have hflat : ∀ ev ∈ (e.targetVariants.map fun n =>
        (unitOutcomeTr r cctx n).2).flatten,
        ∃ n2, ev = Event.runCall n2 cctx := by
      intro ev hev
      rw [List.mem_flatten] at hev
      obtain ⟨l, hl, hevl⟩ := hev
      rw [List.mem_map] at hl
      obtain ⟨n2, hn2, hln⟩ := hl
      subst hln
      exact ⟨n2, unitOutcomeTr_events r cctx n2 ev hevl⟩
    refine ⟨?_, ?_, ?_, ?_⟩
    · rw [htr]
      have hnil : List.filter Event.isGen
          ((e.targetVariants.map fun n =>
            (unitOutcomeTr r cctx n).2).flatten) = [] := by
        rw [List.filter_eq_nil_iff]
        intro ev hev
        obtain ⟨n2, hev2⟩ := hflat ev hev
        subst hev2
        simp [Event.isGen]
      simp [List.filter_cons, Event.isGen, hnil]
    · intro n c hmem
      rw [htr] at hmem
      simp only [List.mem_cons] at hmem
      rcases hmem with heq | hmem2
      · exact absurd heq (by simp)
      · obtain ⟨n2, h2⟩ := hflat _ hmem2
        cases h2
        rfl
    · intro n hn v hv2
      rw [htr]
      simp only [List.mem_cons]
      right
      have hlist : (unitOutcomeTr r cctx n).2 = [Event.runCall n cctx] := by
        unfold unitOutcomeTr
        rw [hv2]
      refine List.mem_flatten_of_mem
        (List.mem_map_of_mem (fun n => (unitOutcomeTr r cctx n).2) hn) ?_
      show Event.runCall n cctx ∈ (unitOutcomeTr r cctx n).2
      rw [hlist]
      simp
    · have hok : MetaOrchestrator.runAdversarialBenchmarkTry r e =
          .ok (mapOfEntries (e.targetVariants.map fun n =>
            settleOutcome n (unitOutcome r cctx n))) := by
        simp [MetaOrchestrator.runAdversarialBenchmarkTry, hv, hi, hg]
      exact runAdv_eq_of_try_ok r e _ hok
  · rfl

/-- Witness for C4 at the "Adv"/"Echo" scenario. -/
theorem adversarial_context_generated_once_witness :
    MetaOrchestrator.getVariant registryAdvEcho
      experimentAdvEcho.adversarialVariant = .ok variantAdv ∧
    variantAdv.impl = VariantImpl.adversarial advGen ∧
    advGen (some experimentAdvEcho.context) =
      .ok [("t", Value.str "HELLO")] ∧
    (((runAdversarialBenchmarkTraced registryAdvEcho
        experimentAdvEcho).2.filter Event.isGen =
      [Event.genCall (some experimentAdvEcho.context)
        (.ok [("t", Value.str "HELLO")])]) ∧
     (∀ n c, Event.runCall n c ∈ (runAdversarialBenchmarkTraced registryAdvEcho
        experimentAdvEcho).2 → c = [("t", Value.str "HELLO")]) ∧
     (∀ n ∈ experimentAdvEcho.targetVariants, ∀ v,
        MetaOrchestrator.getVariant registryAdvEcho n = .ok v →
        Event.runCall n [("t", Value.str "HELLO")] ∈
          (runAdversarialBenchmarkTraced registryAdvEcho
            experimentAdvEcho).2) ∧
     MetaOrchestrator.runAdversarialBenchmark registryAdvEcho
        experimentAdvEcho =
       mapOfEntries (experimentAdvEcho.targetVariants.map fun n =>
         settleOutcome n (unitOutcome registryAdvEcho
           [("t", Value.str "HELLO")] n))) :=
  ⟨rfl, rfl, rfl,
    adversarial_context_generated_once.1 registryAdvEcho experimentAdvEcho
      variantAdv advGen [("t", Value.str "HELLO")] rfl rfl rfl⟩
